import Mathlib

/-!
Verification of the email-scraper website crawler
(`src/scrapers/websiteCrawler.ts`).

The crawler's URL handling is done through the platform WHATWG `URL`
class (`new URL(url)`, `new URL(url, base)`, `.hostname`, `.hash`,
`.href`).  We model the subset of that class the crawler exercises:
hierarchical `scheme://host[:port]/path[?query][#fragment]` URLs and
relative-reference resolution per RFC 3986 section 5 (which agrees with
the WHATWG algorithm on this subset).  Strings outside the subset
(opaque-path schemes such as `mailto:`, userinfo, IPv6 hosts, percent
encoding) are treated as unparseable; no claim depends on them.
-/

namespace EmailScraper

/-- The single-quote character. -/
def squote : Char := Char.ofNat 39

/-- Characters allowed in a URL scheme (RFC 3986: ALPHA / DIGIT / + / - / .). -/
def isSchemeChar (c : Char) : Bool :=
  c.isAlpha || c.isDigit || c = '+' || c = '-' || c = '.'

/-- Characters we accept in a registered host name. -/
def isHostChar (c : Char) : Bool :=
  c.isAlpha || c.isDigit || c = '-' || c = '.'

/-- A parsed hierarchical URL. `path` is the list of path segments: the
serialized path is `/` followed by the segments joined with `/`
(so `[]` and `[""]` both serialize to `/`). -/
structure Url where
  scheme : String
  host : String
  port : Option Nat
  path : List String
  query : Option String
  fragment : Option String
deriving DecidableEq, Repr

/-- Split a character list into the segments between `/` separators. -/
def splitSlashAux : List Char → List Char → List String
  | acc, [] => [String.mk acc.reverse]
  | acc, c :: rest =>
    if c = '/' then String.mk acc.reverse :: splitSlashAux [] rest
    else splitSlashAux (c :: acc) rest

/-- Numeric value of a digit string. -/
def portVal (cs : List Char) : Nat :=
  cs.foldl (fun n c => n * 10 + (c.toNat - 48)) 0

/-- Parse `host[:port]` from the authority characters.  Fails (throws, in
the platform class) on an empty or invalid host or a non-numeric or
out-of-range port. -/
def parseAuthority (cs : List Char) : Option (String × Option Nat) :=
  let hostChars := cs.takeWhile (fun c => c != ':')
  let rest := cs.drop hostChars.length
  if hostChars.isEmpty then none
  else if !(hostChars.all isHostChar) then none
  else
    let host := String.mk (hostChars.map Char.toLower)
    match rest with
    | [] => some (host, none)
    | _ :: pcs =>
      if pcs.isEmpty then some (host, none)
      else if pcs.all Char.isDigit then
        if portVal pcs ≤ 65535 then some (host, some (portVal pcs)) else none
      else none

/-- Parse the `path [? query] [# fragment]` part that follows an authority. -/
def parsePQF (cs : List Char) : List String × Option String × Option String :=
  let pathChars := cs.takeWhile (fun c => c != '?' && c != '#')
  let rest := cs.drop pathChars.length
  let path : List String :=
    match pathChars with
    | [] => []
    | _ :: ps => splitSlashAux [] ps
  match rest with
  | '?' :: qs =>
    let qChars := qs.takeWhile (fun c => c != '#')
    let rest2 := qs.drop qChars.length
    (path, some (String.mk qChars),
      match rest2 with
      | '#' :: fs => some (String.mk fs)
      | _ => none)
  | '#' :: fs => (path, none, some (String.mk fs))
  | _ => (path, none, none)

/-- Parse an absolute hierarchical URL `scheme://host[:port]...`.
`none` models the platform `URL` constructor throwing. -/
def parseAbsList (cs : List Char) : Option Url :=
  match cs with
  | [] => none
  | c0 :: _ =>
    if !c0.isAlpha then none
    else
      let schemeChars := cs.takeWhile isSchemeChar
      match cs.drop schemeChars.length with
      | ':' :: '/' :: '/' :: rest2 =>
        let authChars := rest2.takeWhile (fun c => c != '/' && c != '?' && c != '#')
        let rest3 := rest2.drop authChars.length
        match parseAuthority authChars with
        | none => none
        | some (host, port) =>
          let (path, query, frag) := parsePQF rest3
          some ⟨String.mk (schemeChars.map Char.toLower), host, port, path, query, frag⟩
      | _ => none

/-- RFC 3986 `remove_dot_segments`, on segment lists.  A trailing `.` or
`..` leaves a trailing empty segment (a directory path); excess `..` at
the root is dropped, as the WHATWG algorithm does for special schemes. -/
def rdsAux : List String → List String → List String
  | out, [] => out.reverse
  | out, ["."] => out.reverse ++ [""]
  | out, [".."] => (out.drop 1).reverse ++ [""]
  | out, "." :: rest => rdsAux out rest
  | out, ".." :: rest => rdsAux (out.drop 1) rest
  | out, seg :: rest => rdsAux (seg :: out) rest

/-- Resolve a (possibly relative) reference against a parsed base URL:
the behaviour of `new URL(ref, base)` on the modelled subset. -/
def resolveList (ref : List Char) (base : Url) : Option Url :=
  match parseAbsList ref with
  | some u => some u
  | none =>
    match ref with
    | [] => some ⟨base.scheme, base.host, base.port, base.path, base.query, none⟩
    | '#' :: fs =>
      some ⟨base.scheme, base.host, base.port, base.path, base.query, some (String.mk fs)⟩
    | '?' :: _ =>
      let (_, query, frag) := parsePQF ref
      some ⟨base.scheme, base.host, base.port, base.path, query, frag⟩
    | '/' :: '/' :: rest2 =>
      let authChars := rest2.takeWhile (fun c => c != '/' && c != '?' && c != '#')
      let rest3 := rest2.drop authChars.length
      match parseAuthority authChars with
      | none => none
      | some (host, port) =>
        let (path, query, frag) := parsePQF rest3
        some ⟨base.scheme, host, port, rdsAux [] path, query, frag⟩
    | '/' :: _ =>
      let (path, query, frag) := parsePQF ref
      some ⟨base.scheme, base.host, base.port, rdsAux [] path, query, frag⟩
    | _ =>
      let seg1 := ref.takeWhile (fun c => c != '/' && c != '?' && c != '#')
      if seg1.contains ':' then none
      else
        let pathChars := ref.takeWhile (fun c => c != '?' && c != '#')
        let rest := ref.drop pathChars.length
        let refSegs := splitSlashAux [] pathChars
        let (_, query, frag) := parsePQF rest
        some ⟨base.scheme, base.host, base.port,
              rdsAux [] (base.path.dropLast ++ refSegs), query, frag⟩

/-- Default ports omitted from the serialized href, as WHATWG does. -/
def defaultPort : String → Option Nat
  | "http" => some 80
  | "https" => some 443
  | "ws" => some 80
  | "wss" => some 443
  | "ftp" => some 21
  | _ => none

/-- Serialize a URL: the `.href` property. -/
def Url.href (u : Url) : String :=
  let portStr :=
    match u.port with
    | none => ""
    | some p => if defaultPort u.scheme = some p then "" else ":" ++ toString p
  let queryStr :=
    match u.query with
    | none => ""
    | some q => "?" ++ q
  let fragStr :=
    match u.fragment with
    | none => ""
    | some f => "#" ++ f
  u.scheme ++ "://" ++ u.host ++ portStr ++ ("/" ++ String.intercalate "/" u.path)
    ++ queryStr ++ fragStr

/-- Model of `getDomain` (websiteCrawler.ts lines 23-30): `new URL(url).hostname`,
or the empty string when the constructor throws. -/
def getDomain (url : String) : String :=
  match parseAbsList url.data with
  | some u => u.host
  | none => ""

/-- Model of `normalizeUrl` (websiteCrawler.ts lines 35-44): parse the base, resolve
`url` against it, remove the fragment (`resolved.hash = ''`), and return
the serialized href; `null` when either parse throws. -/
def normalizeUrl (url : String) (baseUrl : String) : Option String :=
  match parseAbsList baseUrl.data with
  | none => none
  | some base =>
    match resolveList url.data base with
    | none => none
    | some r => some (Url.href ⟨r.scheme, r.host, r.port, r.path, r.query, none⟩)

/-- Is this character a single or double quote? -/
def isQuote (c : Char) : Bool := c = '"' || c = squote

/-- Case-insensitive "does `s` start with the pattern". -/
def startsWithCI : List Char → List Char → Bool
  | [], _ => true
  | _ :: _, [] => false
  | p :: ps, c :: cs => (p.toLower == c.toLower) && startsWithCI ps cs

/-- Try to match `href=["']([^"']+)["']` at the head of `s` (the tail of
the regex `/<a[^>]+href=["']([^"']+)["']/gi`).  Returns the capture and
the remainder after the closing quote. -/
def tryHrefAt (s : List Char) : Option (List Char × List Char) :=
  if startsWithCI "href=".data s then
    match s.drop 5 with
    | [] => none
    | q1 :: rest =>
      if isQuote q1 then
        let cap := rest.takeWhile (fun c => !isQuote c)
        if cap.isEmpty then none
        else
          match rest.drop cap.length with
          | [] => none
          | q2 :: rest2 => if isQuote q2 then some (cap, rest2) else none
      else none
  else none

/-- Greedy backtracking for the `[^>]+` part: try consuming `n` non-`>`
characters, longest first, then match the `href=` tail. -/
def btHref (s : List Char) : Nat → Option (List Char × List Char)
  | 0 => none
  | n + 1 =>
    match tryHrefAt (s.drop (n + 1)) with
    | some r => some r
    | none => btHref s n

/-- Match the whole regex `/<a[^>]+href=["']([^"']+)["']/i` at the head
of `s` (case-insensitive on `<a` and `href=`). -/
def matchAnchorAt (s : List Char) : Option (List Char × List Char) :=
  match s with
  | c1 :: c2 :: rest =>
    if c1 == '<' && c2.toLower == 'a' then
      btHref rest ((rest.takeWhile (fun c => c != '>')).length)
    else none
  | _ => none

/-- The `regex.exec` loop with the `g` flag: find the leftmost match,
record its capture, and continue after the match end.  Each step
consumes at least one character so `fuel = input length` is exact. -/
def scanLinks : Nat → List Char → List (List Char)
  | 0, _ => []
  | _ + 1, [] => []
  | fuel + 1, c :: rest =>
    match matchAnchorAt (c :: rest) with
    | some (cap, after) => cap :: scanLinks fuel after
    | none => scanLinks fuel rest

/-- JS `Set.add`: append only when not already present. -/
def setAdd (l : List String) (x : String) : List String :=
  if x ∈ l then l else l ++ [x]

/-- Model of `extractLinks` (websiteCrawler.ts lines 49-62): run the anchor-href
regex over the HTML, normalize each captured href against `baseUrl`,
and collect the successes into a deduplicating set (modelled as a
duplicate-free list in insertion order). -/
def extractLinks (html baseUrl : String) : List String :=
  (scanLinks html.data.length html.data).foldl
    (fun acc cap =>
      match normalizeUrl (String.mk cap) baseUrl with
      | some link => setAdd acc link
      | none => acc) []

/-- A frontier entry: `{ url, depth }` (the element type of `toVisit`). -/
structure Entry where
  url : String
  depth : Nat
deriving DecidableEq, Repr

/-- Outcome of the platform `fetch` for one URL: a thrown network error,
or a response with `ok` flag, `status` and body text. -/
inductive HttpResult where
  | networkError (msg : String)
  | response (ok : Bool) (status : Nat) (body : String)
deriving DecidableEq, Repr

/-- The crawl's external collaborators, keyed by URL (each URL is fetched
at most once, so one behaviour per URL suffices).  `extractEmails`
models `extractAndNormalizeEmails` and `scrapeResult` models
`scrapeEmailsFromPage`: both live outside the crawler file and are pure
collaborators returning deduplicated email sets, modelled as lists.
`newPageFails`, `gotoResult`, `contentResult`, `closeResult` model the
browser page operations throwing (`some msg` / `.error msg`) or
succeeding. -/
structure Env where
  http : String → HttpResult
  extractEmails : String → List String
  newPageFails : String → Option String
  gotoResult : String → Option String
  contentResult : String → Except String String
  scrapeResult : String → Except String (List String)
  closeResult : String → Option String

/-- Observable events of one crawl run, in order.  `fetchAttempt` marks a
URL reaching the fetch step (after the visited/depth/domain filters and
`visited.add`); `pageVisited` marks the `onPageVisited` callback point;
`onErrorCalled` / `logged` mark the two arms of the catch block;
`enqueued` marks a push onto `toVisit`. -/
inductive Event where
  | fetchAttempt (url : String) (depth : Nat)
  | pageOpened (url : String)
  | pageClosed (url : String)
  | pageVisited (url : String) (depth : Nat) (emailCount : Nat)
  | enqueued (url : String) (depth : Nat)
  | onErrorCalled (url : String) (msg : String)
  | logged (url : String) (msg : String)
deriving DecidableEq, Repr

/-- The options record of `scrapeEmailsFromWebsite`, with its defaults.
`waitUntil` and `timeout` only parametrize the browser collaborators and
are absorbed into `Env`; `hasBrowser` records whether `options.browser`
was supplied, `hasOnError` whether the `onError` callback was. -/
structure CrawlOptions where
  maxDepth : Nat := 3
  maxPages : Nat := 50
  sameDomainOnly : Bool := true
  useBrowser : Bool := false
  hasBrowser : Bool := false
  hasOnError : Bool := false
deriving DecidableEq, Repr

/-- The mutable state of one crawl run, plus the event trace. -/
structure CrawlState where
  allEmails : List String
  visited : List String
  toVisit : List Entry
  events : List Event
deriving DecidableEq, Repr

/-- The browser fetch path (websiteCrawler.ts lines 111-118):
`browser.newPage()`, then a try block running `goto`, `content()` and
`scrapeEmailsFromPage`, with `page.close()` in the `finally`.  Returns
the result (a `finally` that throws supersedes the inner outcome) and
the page open/close events.  If `newPage` itself throws there is no page
to close. -/
def browserFetch (env : Env) (url : String) :
    Except String (List String × String) × List Event :=
  match env.newPageFails url with
  | some e => (.error e, [])
  | none =>
    let inner : Except String (List String × String) :=
      match env.gotoResult url with
      | some e => .error e
      | none =>
        match env.contentResult url with
        | .error e => .error e
        | .ok html =>
          match env.scrapeResult url with
          | .error e => .error e
          | .ok emails => .ok (emails, html)
    let result : Except String (List String × String) :=
      match env.closeResult url with
      | some e => .error e
      | none => inner
    (result, [Event.pageOpened url, Event.pageClosed url])

/-- The HTTP fetch path (websiteCrawler.ts lines 119-130): `fetch`, throw
on `!response.ok`, then extract emails from the body text. -/
def httpFetch (env : Env) (url : String) : Except String (List String × String) :=
  match env.http url with
  | .networkError msg => .error msg
  | .response ok status body =>
    if !ok then .error ("HTTP error! status: " ++ toString status)
    else .ok (env.extractEmails body, body)

/-- The link-enqueue loop (lines 142-148): for each extracted link not yet
visited and passing the domain filter, push `(link, depth + 1)`. -/
def newEntries (opts : CrawlOptions) (startDomain : String) (visited : List String)
    (links : List String) (depth : Nat) : List Entry :=
  (links.filter (fun link =>
    !visited.contains link &&
      (!opts.sameDomainOnly || getDomain link == startDomain))).map
    (fun l => ⟨l, depth + 1⟩)

/-- Strategy dispatch (line 110): the browser path is taken only when
`useBrowser` is set AND a browser handle was supplied
(`if (useBrowser && browser)`); otherwise the plain HTTP path runs. -/
def fetchPage (env : Env) (opts : CrawlOptions) (url : String) :
    Except String (List String × String) × List Event :=
  if opts.useBrowser && opts.hasBrowser then browserFetch env url
  else (httpFetch env url, [])

/-- The body of one loop iteration after the filters passed (lines
104-157): mark visited, fetch with the selected strategy, merge emails
and fire `onPageVisited` on success, extract and enqueue links when
`depth < maxDepth`, and on a thrown error fire `onError` (or log). -/
def processEntry (env : Env) (opts : CrawlOptions) (startDomain : String)
    (entry : Entry) (rest : List Entry) (st : CrawlState) : CrawlState :=
  let visited1 := st.visited ++ [entry.url]
  let events2 := (st.events ++ [Event.fetchAttempt entry.url entry.depth])
    ++ (fetchPage env opts entry.url).2
  match (fetchPage env opts entry.url).1 with
  | .ok (emails, html) =>
    let allEmails1 := emails.foldl setAdd st.allEmails
    let events3 := events2 ++ [Event.pageVisited entry.url entry.depth emails.length]
    if entry.depth < opts.maxDepth then
      let links := extractLinks html entry.url
      let added := newEntries opts startDomain visited1 links entry.depth
      { allEmails := allEmails1
        visited := visited1
        toVisit := rest ++ added
        events := events3 ++ added.map (fun e => Event.enqueued e.url e.depth) }
    else
      { allEmails := allEmails1, visited := visited1, toVisit := rest, events := events3 }
  | .error msg =>
    { allEmails := st.allEmails
      visited := visited1
      toVisit := rest
      events := events2 ++
        [if opts.hasOnError then Event.onErrorCalled entry.url msg
         else Event.logged entry.url msg] }

/-- One iteration of the while loop body (lines 88-158): pop the head of
`toVisit`, apply the visited/depth/domain filters (lines 91-102), and
process the entry. -/
def crawlStep (env : Env) (opts : CrawlOptions) (startDomain : String)
    (st : CrawlState) : CrawlState :=
  match st.toVisit with
  | [] => st
  | entry :: rest =>
    if st.visited.contains entry.url then
      { st with toVisit := rest }
    else if entry.depth > opts.maxDepth then
      { st with toVisit := rest }
    else if opts.sameDomainOnly && getDomain entry.url != startDomain then
      { st with toVisit := rest }
    else
      processEntry env opts startDomain entry rest st

/-- The while loop (line 88): run while the frontier is non-empty and
`visited.size < maxPages`.  `fuel` bounds the number of iterations; any
state reachable during the run is the result for some fuel value. -/
def crawlLoop (env : Env) (opts : CrawlOptions) (startDomain : String) :
    Nat → CrawlState → CrawlState
  | 0, st => st
  | fuel + 1, st =>
    if st.toVisit ≠ [] ∧ st.visited.length < opts.maxPages then
      crawlLoop env opts startDomain fuel (crawlStep env opts startDomain st)
    else st

/-- The crawl entry point `scrapeEmailsFromWebsite(startUrl, options)`:
initialize the frontier with `(startUrl, 0)`, compute the start domain
once, and run the loop.  The TS function returns `allEmails`; we return
the whole final state so invariants can be stated about it. -/
def scrapeEmailsFromWebsite (env : Env) (startUrl : String) (opts : CrawlOptions)
    (fuel : Nat) : CrawlState :=
  crawlLoop env opts (getDomain startUrl) fuel
    { allEmails := [], visited := [], toVisit := [⟨startUrl, 0⟩], events := [] }

/-- Concrete HTTP environment for the budget scenario (spec Scenario B):
the start page links to five distinct URLs; every other page is empty. -/
def envFiveLinks : Env where
  http := fun u =>
    if u = "https://a.example" then
      .response true 200
        "<a href=\"/p1\">1</a><a href=\"/p2\">2</a><a href=\"/p3\">3</a><a href=\"/p4\">4</a><a href=\"/p5\">5</a>"
    else .response true 200 ""
  extractEmails := fun _ => []
  newPageFails := fun _ => some "no browser"
  gotoResult := fun _ => none
  contentResult := fun _ => .ok ""
  scrapeResult := fun _ => .ok []
  closeResult := fun _ => none

/-- Concrete HTTP environment for the error scenario (spec Scenario E):
the start page links to `/u2` and `/u3`; fetching `/u2` throws a network
error; `/u3` carries one email. -/
def envErrorRun : Env where
  http := fun u =>
    if u = "https://a.example" then
      .response true 200 "<a href=\"/u2\">2</a><a href=\"/u3\">3</a>"
    else if u = "https://a.example/u2" then .networkError "network down"
    else if u = "https://a.example/u3" then .response true 200 "mail me"
    else .response false 404 ""
  extractEmails := fun body => if body = "mail me" then ["c@d.example"] else []
  newPageFails := fun _ => some "no browser"
  gotoResult := fun _ => none
  contentResult := fun _ => .ok ""
  scrapeResult := fun _ => .ok []
  closeResult := fun _ => none

/-- Concrete HTTP environment for the domain-scope scenarios (spec
Scenario D and the hostname-only filter): the start page links to a
same-host URL with a different scheme and port, and to another host. -/
def envCrossDomain : Env where
  http := fun u =>
    if u = "https://a.example" then
      .response true 200
        "<a href=\"http://a.example:8080/x\">x</a><a href=\"https://b.example/y\">y</a>"
    else .response true 200 ""
  extractEmails := fun _ => []
  newPageFails := fun _ => some "no browser"
  gotoResult := fun _ => none
  contentResult := fun _ => .ok ""
  scrapeResult := fun _ => .ok []
  closeResult := fun _ => none

/-- Per-event depth discipline: fetch attempts stay at or below the
ceiling, enqueues happen at `parent depth + 1 ≤ maxDepth`. -/
def eventDepthOk (maxDepth : Nat) : Event → Prop
  | .fetchAttempt _ d => d ≤ maxDepth
  | .enqueued _ d => 1 ≤ d ∧ d ≤ maxDepth
  | _ => True

/-- Every event of the trace satisfies the depth discipline. -/
def depthEventsOk (maxDepth : Nat) (evs : List Event) : Prop :=
  ∀ e ∈ evs, eventDepthOk maxDepth e

/-- Per-event domain discipline: fetched and enqueued URLs have the
start domain. -/
def eventDomainOk (sd : String) : Event → Prop
  | .fetchAttempt u _ => getDomain u = sd
  | .enqueued u _ => getDomain u = sd
  | _ => True

/-- Every event of the trace satisfies the domain discipline. -/
def domainEventsOk (sd : String) (evs : List Event) : Prop :=
  ∀ e ∈ evs, eventDomainOk sd e

/-- Concrete HTTP environment with a two-hop link chain: the start page
links to `/d1`, whose page links to `/d2`. -/
def envDeep : Env where
  http := fun u =>
    if u = "https://a.example" then .response true 200 "<a href=\"/d1\">1</a>"
    else if u = "https://a.example/d1" then .response true 200 "<a href=\"/d2\">2</a>"
    else .response true 200 ""
  extractEmails := fun _ => []
  newPageFails := fun _ => some "no browser"
  gotoResult := fun _ => none
  contentResult := fun _ => .ok ""
  scrapeResult := fun _ => .ok []
  closeResult := fun _ => none

/-- Concrete browser-mode environment in which navigation (`page.goto`)
throws for every URL. -/
def envGotoFails : Env where
  http := fun _ => .response false 500 ""
  extractEmails := fun _ => []
  newPageFails := fun _ => none
  gotoResult := fun _ => some "navigation timeout"
  contentResult := fun _ => .ok ""
  scrapeResult := fun _ => .ok []
  closeResult := fun _ => none

/-- Does this event record a fetch attempt of `u`? -/
def isFetchOf (u : String) : Event → Bool
  | .fetchAttempt v _ => v == u
  | _ => false

/-- Does this event record an enqueue of `u`? -/
def isEnqueueOf (u : String) : Event → Bool
  | .enqueued v _ => v == u
  | _ => false

/-- The depths of the fetch attempts in the trace, in order. -/
def fetchDepths (evs : List Event) : List Nat :=
  evs.filterMap (fun e => match e with | .fetchAttempt _ d => some d | _ => none)

/-- The depths of the frontier entries, in order. -/
def frontierDepths (st : CrawlState) : List Nat :=
  st.toVisit.map Entry.depth

/-- How many fetch attempts of `u` the trace records. -/
def fetchCount (u : String) (evs : List Event) : Nat :=
  (evs.filter (isFetchOf u)).length

/-- The depths at which `u` was enqueued, in trace order. -/
def enqueueDepths (u : String) (evs : List Event) : List Nat :=
  evs.filterMap (fun e =>
    match e with
    | .enqueued v d => if v == u then some d else none
    | _ => none)

/-- The "discovery" the initial frontier accounts for: the start URL is
discovered at depth 0 before the loop begins. -/
def initDepths (startUrl u : String) : List Nat :=
  if u = startUrl then [0] else []

/-- Scans the trace checking that every `pageOpened` is immediately
followed by the matching `pageClosed` — i.e. a page opened for one URL
is closed again before anything else happens. -/
def pagesClosed : List Event → Bool
  | [] => true
  | .pageOpened u :: rest =>
    match rest with
    | .pageClosed v :: rest2 => u == v && pagesClosed rest2
    | _ => false
  | _ :: rest => pagesClosed rest

/-- Traces in which pages are opened and closed in immediate pairs. -/
inductive Balanced : List Event → Prop
  | nil : Balanced []
  | other (e : Event) (h : ∀ u, e ≠ Event.pageOpened u) (rest : List Event) :
      Balanced rest → Balanced (e :: rest)
  | pair (u : String) (rest : List Event) :
      Balanced rest → Balanced (Event.pageOpened u :: Event.pageClosed u :: rest)

/-- The BFS well-ordering invariant: processed (fetched) depths are
nondecreasing, frontier depths are nondecreasing and within one of each
other, and no processed depth exceeds any frontier depth. -/
def bfsInv (st : CrawlState) : Prop :=
  List.Pairwise (· ≤ ·) (fetchDepths st.events) ∧
  List.Pairwise (· ≤ ·) (frontierDepths st) ∧
  (∀ x ∈ frontierDepths st, ∀ y ∈ frontierDepths st, x ≤ y + 1) ∧
  (∀ d ∈ fetchDepths st.events, ∀ x ∈ frontierDepths st, d ≤ x)

/-- The dedup invariant of C6: frontier entries always pass the depth and
domain filters (so a popped entry is only ever skipped when already
visited); a URL not yet visited has no fetch event and its pending
frontier copies, in FIFO order, carry exactly its discovery depths; a
visited URL was fetched at most once; and every fetch attempt of `u` at
depth `d` happened at the head of `u`'s discovery-depth list, i.e. at
its first discovery. -/
def dedupInv (opts : CrawlOptions) (sd startUrl : String) (st : CrawlState) : Prop :=
  (∀ e ∈ st.toVisit, e.depth ≤ opts.maxDepth ∧
      (opts.sameDomainOnly && getDomain e.url != sd) = false) ∧
  (∀ u : String,
    (u ∈ st.visited → fetchCount u st.events ≤ 1) ∧
    (u ∉ st.visited → fetchCount u st.events = 0 ∧
      ((st.toVisit.filter (fun e => e.url == u)).map Entry.depth
        = initDepths startUrl u ++ enqueueDepths u st.events)) ∧
    (∀ d : Nat, Event.fetchAttempt u d ∈ st.events →
      (initDepths startUrl u ++ enqueueDepths u st.events).head? = some d))

/-- Is this event a report of a page-level failure (either arm of the
catch block)? -/
def isErrorEvent : Event → Bool
  | .onErrorCalled _ _ => true
  | .logged _ _ => true
  | _ => false

end EmailScraper

namespace EmailScraper

/-! ### Lemmas about `setAdd` and the link-collecting fold -/

theorem mem_setAdd {l : List String} {x y : String} :
    y ∈ setAdd l x ↔ y ∈ l ∨ y = x := by
  unfold setAdd
  split
  · next h =>
    constructor
    · exact fun hy => Or.inl hy
    · rintro (hy | rfl)
      · exact hy
      · exact h
  · simp [List.mem_append]

theorem nodup_setAdd {l : List String} {x : String} (h : l.Nodup) :
    (setAdd l x).Nodup := by
  unfold setAdd
  split
  · exact h
  · next hx => simp [List.nodup_append, h, hx]

theorem foldl_links_mem (baseUrl : String) :
    ∀ (caps : List (List Char)) (acc : List String) (link : String),
      link ∈ caps.foldl (fun acc cap =>
          match normalizeUrl (String.mk cap) baseUrl with
          | some l => setAdd acc l
          | none => acc) acc →
      link ∈ acc ∨ ∃ cap ∈ caps, normalizeUrl (String.mk cap) baseUrl = some link := by
  intro caps
  induction caps with
  | nil => intro acc link h; exact Or.inl h
  | cons c cs ih =>
    intro acc link h
    simp only [List.foldl_cons] at h
    rcases hc : normalizeUrl (String.mk c) baseUrl with _ | l
    · rw [hc] at h
      rcases ih _ _ h with h1 | ⟨cap, hcap, hn⟩
      · exact Or.inl h1
      · exact Or.inr ⟨cap, List.mem_cons_of_mem _ hcap, hn⟩
    · rw [hc] at h
      rcases ih _ _ h with h1 | ⟨cap, hcap, hn⟩
      · rcases mem_setAdd.mp h1 with h2 | rfl
        · exact Or.inl h2
        · exact Or.inr ⟨c, List.mem_cons_self _ _, hc⟩
      · exact Or.inr ⟨cap, List.mem_cons_of_mem _ hcap, hn⟩

theorem foldl_links_nodup (baseUrl : String) :
    ∀ (caps : List (List Char)) (acc : List String), acc.Nodup →
      (caps.foldl (fun acc cap =>
          match normalizeUrl (String.mk cap) baseUrl with
          | some l => setAdd acc l
          | none => acc) acc).Nodup := by
  intro caps
  induction caps with
  | nil => intro acc h; exact h
  | cons c cs ih =>
    intro acc h
    simp only [List.foldl_cons]
    rcases hc : normalizeUrl (String.mk c) baseUrl with _ | l
    · exact ih _ h
    · exact ih _ (nodup_setAdd h)

/-! ### Lemmas about one crawl step -/

theorem processEntry_visited (env : Env) (opts : CrawlOptions) (sd : String)
    (entry : Entry) (rest : List Entry) (st : CrawlState) :
    (processEntry env opts sd entry rest st).visited = st.visited ++ [entry.url] := by
  unfold processEntry
  cases hf : (fetchPage env opts entry.url).1 with
  | error msg => simp [hf]
  | ok p =>
    obtain ⟨emails, html⟩ := p
    simp only [hf]
    split <;> rfl

theorem crawlStep_visited_le (env : Env) (opts : CrawlOptions) (sd : String)
    (st : CrawlState) :
    (crawlStep env opts sd st).visited.length ≤ st.visited.length + 1 := by
  unfold crawlStep
  cases htv : st.toVisit with
  | nil => exact Nat.le_succ _
  | cons entry rest =>
    dsimp only
    split
    · exact Nat.le_succ _
    split
    · exact Nat.le_succ _
    split
    · exact Nat.le_succ _
    rw [processEntry_visited]
    simp

theorem fetchPage_events (env : Env) (opts : CrawlOptions) (url : String) :
    (fetchPage env opts url).2 = [] ∨
      (fetchPage env opts url).2 = [Event.pageOpened url, Event.pageClosed url] := by
  unfold fetchPage browserFetch
  split
  · cases env.newPageFails url <;> simp
  · simp

theorem mem_newEntries {opts : CrawlOptions} {sd : String} {visited : List String}
    {links : List String} {depth : Nat} {e : Entry}
    (h : e ∈ newEntries opts sd visited links depth) :
    e.url ∈ links ∧ e.depth = depth + 1 ∧ visited.contains e.url = false ∧
      (opts.sameDomainOnly = true → getDomain e.url = sd) := by
  unfold newEntries at h
  simp only [List.mem_map, List.mem_filter] at h
  obtain ⟨l, ⟨hl, hcond⟩, rfl⟩ := h
  simp only [Bool.and_eq_true, Bool.not_eq_true'] at hcond
  refine ⟨hl, rfl, hcond.1, ?_⟩
  intro hsd
  rcases Bool.or_eq_true _ _ |>.mp hcond.2 with hc | hc
  · rw [Bool.not_eq_true', hsd] at hc; cases hc
  · exact beq_iff_eq.mp hc

/-- A generic preservation lemma for per-event invariants: if every event
`processEntry` appends for this entry satisfies `P`, the whole-trace
invariant is preserved. -/
theorem processEntry_events_ok (P : Event → Prop) (env : Env) (opts : CrawlOptions)
    (sd : String) (entry : Entry) (rest : List Entry) (st : CrawlState)
    (h : ∀ e ∈ st.events, P e)
    (hfetch : P (Event.fetchAttempt entry.url entry.depth))
    (hopen : P (Event.pageOpened entry.url))
    (hclose : P (Event.pageClosed entry.url))
    (hvisit : ∀ n, P (Event.pageVisited entry.url entry.depth n))
    (herr : ∀ msg, P (Event.onErrorCalled entry.url msg))
    (hlog : ∀ msg, P (Event.logged entry.url msg))
    (henq : ∀ emails html, (fetchPage env opts entry.url).1 = .ok (emails, html) →
        entry.depth < opts.maxDepth →
        ∀ ent ∈ newEntries opts sd (st.visited ++ [entry.url])
            (extractLinks html entry.url) entry.depth,
          P (Event.enqueued ent.url ent.depth)) :
    ∀ e ∈ (processEntry env opts sd entry rest st).events, P e := by
  have hfe2 : ∀ e ∈ (fetchPage env opts entry.url).2, P e := by
    rcases fetchPage_events env opts entry.url with hfe | hfe <;> rw [hfe]
    · intro e he; cases he
    · intro e he
      simp only [List.mem_cons, List.not_mem_nil, or_false] at he
      rcases he with rfl | rfl
      · exact hopen
      · exact hclose
  unfold processEntry
  cases hf : (fetchPage env opts entry.url).1 with
  | error msg =>
    simp only [hf]
    intro e he
    simp only [List.mem_append] at he
    rcases he with ((he | he) | he) | he
    · exact h e he
    · rw [List.mem_singleton] at he; exact he ▸ hfetch
    · exact hfe2 e he
    · rw [List.mem_singleton] at he
      subst he
      split
      · exact herr msg
      · exact hlog msg
  | ok p =>
    obtain ⟨emails, html⟩ := p
    simp only [hf]
    split
    · next hlt =>
      intro e he
      simp only [List.mem_append] at he
      rcases he with (((he | he) | he) | he) | he
      · exact h e he
      · rw [List.mem_singleton] at he; exact he ▸ hfetch
      · exact hfe2 e he
      · rw [List.mem_singleton] at he; exact he ▸ hvisit emails.length
      · rw [List.mem_map] at he
        obtain ⟨ent, hent, rfl⟩ := he
        exact henq emails html hf hlt ent hent
    · next hge =>
      intro e he
      simp only [List.mem_append] at he
      rcases he with ((he | he) | he) | he
      · exact h e he
      · rw [List.mem_singleton] at he; exact he ▸ hfetch
      · exact hfe2 e he
      · rw [List.mem_singleton] at he; exact he ▸ hvisit emails.length

/-- A generic while-loop invariant: preserved by the step under the loop
guard, hence it holds for the loop result. -/
theorem crawlLoop_invariant (env : Env) (opts : CrawlOptions) (sd : String)
    (P : CrawlState → Prop)
    (hstep : ∀ st, st.toVisit ≠ [] → st.visited.length < opts.maxPages →
      P st → P (crawlStep env opts sd st)) :
    ∀ (fuel : Nat) (st : CrawlState), P st → P (crawlLoop env opts sd fuel st) := by
  intro fuel
  induction fuel with
  | zero => intro st h; exact h
  | succ n ih =>
    intro st h
    unfold crawlLoop
    split
    · next hg => exact ih _ (hstep st hg.1 hg.2 h)
    · exact h

/-! ### C1: the page budget -/

theorem crawlLoop_visited_le (env : Env) (opts : CrawlOptions) (sd : String) :
    ∀ (fuel : Nat) (st : CrawlState), st.visited.length ≤ opts.maxPages →
      (crawlLoop env opts sd fuel st).visited.length ≤ opts.maxPages := by
  intro fuel
  induction fuel with
  | zero => intro st h; exact h
  | succ n ih =>
    intro st h
    unfold crawlLoop
    split
    · next hg =>
      refine ih _ ?_
      have hs := crawlStep_visited_le env opts sd st
      omega
    · exact h

/-- C1: for every crawl run with any `maxPages`, the visited set never
exceeds `maxPages` (stated for the state after any number of loop
iterations, i.e. at any point of the run); and in the concrete run with
`maxPages = 1` whose start page links to five distinct URLs, exactly
the start URL is processed: the visited set is the start URL alone, the
only fetch attempt is the start URL at depth 0, and the five discovered
links sit unfetched in the frontier when the run stops. -/
theorem visited_size_bounded_by_maxPages :
    (∀ (env : Env) (startUrl : String) (opts : CrawlOptions) (fuel : Nat),
        (scrapeEmailsFromWebsite env startUrl opts fuel).visited.length ≤ opts.maxPages) ∧
    (scrapeEmailsFromWebsite envFiveLinks "https://a.example"
        ⟨3, 1, true, false, false, false⟩ 10).visited = ["https://a.example"] ∧
    ((scrapeEmailsFromWebsite envFiveLinks "https://a.example"
        ⟨3, 1, true, false, false, false⟩ 10).events.filter
      (fun e => match e with | .fetchAttempt _ _ => true | _ => false))
        = [Event.fetchAttempt "https://a.example" 0] ∧
    (scrapeEmailsFromWebsite envFiveLinks "https://a.example"
        ⟨3, 1, true, false, false, false⟩ 10).toVisit.length = 5 := by
  refine ⟨?_, by decide, by decide, by decide⟩
  intro env startUrl opts fuel
  exact crawlLoop_visited_le env opts (getDomain startUrl) fuel _ (by simp)

/-! ### C2: the depth ceiling -/

theorem crawlStep_depthOk (env : Env) (opts : CrawlOptions) (sd : String)
    (st : CrawlState) (h : depthEventsOk opts.maxDepth st.events) :
    depthEventsOk opts.maxDepth (crawlStep env opts sd st).events := by
  unfold crawlStep
  cases htv : st.toVisit with
  | nil => exact h
  | cons entry rest =>
    dsimp only
    split
    · exact h
    split
    · exact h
    next hdep =>
    split
    · exact h
    refine processEntry_events_ok _ env opts sd entry rest st h ?_ trivial trivial
      (fun n => trivial) (fun msg => trivial) (fun msg => trivial) ?_
    · exact Nat.not_lt.mp hdep
    · intro emails html hfok hlt ent hent
      have hm := mem_newEntries hent
      show 1 ≤ ent.depth ∧ ent.depth ≤ opts.maxDepth
      omega

/-- C2: in every crawl run, every fetch attempt happens at depth at most
`maxDepth` and every enqueue targets a depth `d` with `1 ≤ d ≤ maxDepth`
(links are enqueued only from a page at depth `< maxDepth`, at
`depth + 1`, so a page processed at `depth = maxDepth` enqueues
nothing); and in a concrete run with `maxDepth = 1` over the chain
start → `/d1` → `/d2`, the entry `/d1` at depth `= maxDepth` is still
fetched while its link `/d2` is never enqueued — though the same chain
crawled with `maxDepth = 2` does fetch `/d2`, so the link was
discoverable. -/
theorem depth_ceiling :
    (∀ (env : Env) (startUrl : String) (opts : CrawlOptions) (fuel : Nat),
        depthEventsOk opts.maxDepth
          (scrapeEmailsFromWebsite env startUrl opts fuel).events) ∧
    Event.fetchAttempt "https://a.example/d1" 1 ∈
      (scrapeEmailsFromWebsite envDeep "https://a.example"
        ⟨1, 50, true, false, false, false⟩ 10).events ∧
    ((scrapeEmailsFromWebsite envDeep "https://a.example"
        ⟨1, 50, true, false, false, false⟩ 10).events.filter
      (isEnqueueOf "https://a.example/d2")) = [] ∧
    Event.fetchAttempt "https://a.example/d2" 2 ∈
      (scrapeEmailsFromWebsite envDeep "https://a.example"
        ⟨2, 50, true, false, false, false⟩ 10).events := by
  refine ⟨?_, by decide, by decide, by decide⟩
  intro env startUrl opts fuel
  refine crawlLoop_invariant env opts (getDomain startUrl)
    (fun st => depthEventsOk opts.maxDepth st.events)
    (fun st _ _ hP => crawlStep_depthOk env opts (getDomain startUrl) st hP)
    fuel _ ?_
  intro e he
  cases he

/-- Witness for C2: the universal part instantiated on the concrete
`maxDepth = 1` chain run. -/
theorem depth_ceiling_witness :
    depthEventsOk 1
      (scrapeEmailsFromWebsite envDeep "https://a.example"
        ⟨1, 50, true, false, false, false⟩ 10).events :=
  depth_ceiling.1 envDeep "https://a.example" ⟨1, 50, true, false, false, false⟩ 10

/-! ### C3: the domain scope filter -/

theorem crawlStep_domainOk (env : Env) (opts : CrawlOptions) (sd : String)
    (st : CrawlState) (hsd : opts.sameDomainOnly = true)
    (h : domainEventsOk sd st.events) :
    domainEventsOk sd (crawlStep env opts sd st).events := by
  unfold crawlStep
  cases htv : st.toVisit with
  | nil => exact h
  | cons entry rest =>
    dsimp only
    split
    · exact h
    split
    · exact h
    split
    · exact h
    next hdom =>
    refine processEntry_events_ok _ env opts sd entry rest st h ?_ trivial trivial
      (fun n => trivial) (fun msg => trivial) (fun msg => trivial) ?_
    · show getDomain entry.url = sd
      rw [hsd, Bool.true_and, Bool.not_eq_true, bne_eq_false_iff_eq] at hdom
      exact hdom
    · intro emails html hfok hlt ent hent
      exact (mem_newEntries hent).2.2.2 hsd

/-- C3: with `sameDomainOnly = true`, every URL passed to the fetch
strategy and every URL enqueued onto the frontier has `getDomain` equal
to the start URL's domain (computed once, at run start, as
`getDomain startUrl`); a discovered link whose domain differs is never
enqueued. -/
theorem sameDomainOnly_scope (env : Env) (startUrl : String) (opts : CrawlOptions)
    (fuel : Nat) (hsd : opts.sameDomainOnly = true) :
    domainEventsOk (getDomain startUrl)
      (scrapeEmailsFromWebsite env startUrl opts fuel).events := by
  refine crawlLoop_invariant env opts (getDomain startUrl)
    (fun st => domainEventsOk (getDomain startUrl) st.events)
    (fun st _ _ hP => crawlStep_domainOk env opts (getDomain startUrl) st hsd hP)
    fuel _ ?_
  intro e he
  cases he

/-- Witness for C3: the Scenario D run — start `https://a.example`, page
linking to `https://b.example/page` — satisfies the scope property, and
indeed never enqueues the foreign link. -/
theorem sameDomainOnly_scope_witness :
    (⟨(3 : Nat), (50 : Nat), true, false, false, true⟩ : CrawlOptions).sameDomainOnly = true ∧
    domainEventsOk (getDomain "https://a.example")
      (scrapeEmailsFromWebsite envCrossDomain "https://a.example"
        ⟨3, 50, true, false, false, true⟩ 10).events :=
  ⟨rfl, sameDomainOnly_scope envCrossDomain "https://a.example"
    ⟨3, 50, true, false, false, true⟩ 10 rfl⟩

/-! ### C4: useBrowser without a browser handle -/

/-- C4 counterexample: a run invoked with `useBrowser = true` but no
browser handle, against a working HTTP endpoint, visits its pages
successfully and reports no page-level failure at all — the code's
`if (useBrowser && browser)` silently falls back to the HTTP strategy,
so the fetch step does NOT fail for every attempted URL. -/
theorem useBrowser_without_handle_counterexample :
    Event.pageVisited "https://a.example" 0 0 ∈
      (scrapeEmailsFromWebsite envFiveLinks "https://a.example"
        ⟨3, 50, true, true, false, true⟩ 10).events ∧
    ((scrapeEmailsFromWebsite envFiveLinks "https://a.example"
        ⟨3, 50, true, true, false, true⟩ 10).events.filter isErrorEvent) = [] :=
  ⟨by decide, by decide⟩

theorem crawlLoop_fallback (env : Env) (d p : Nat) (sdo hoe : Bool) (sd : String) :
    ∀ (fuel : Nat) (st : CrawlState),
      crawlLoop env ⟨d, p, sdo, true, false, hoe⟩ sd fuel st
        = crawlLoop env ⟨d, p, sdo, false, false, hoe⟩ sd fuel st := by
  intro fuel
  induction fuel with
  | zero => intro st; rfl
  | succ n ih =>
    intro st
    unfold crawlLoop
    dsimp only
    split
    · rw [show crawlStep env ⟨d, p, sdo, true, false, hoe⟩ sd st
            = crawlStep env ⟨d, p, sdo, false, false, hoe⟩ sd st from rfl]
      exact ih _
    · rfl

/-- C4 amended: when `useBrowser = true` but no browser handle is
supplied, the strategy test `if (useBrowser && browser)` fails and the
crawler silently falls back to the plain HTTP strategy: the whole run is
identical, state and trace, to the same run with `useBrowser = false`,
and each page succeeds or fails according to its HTTP response alone
(no per-page configuration failure occurs). -/
theorem useBrowser_without_handle_falls_back_to_http (env : Env) (startUrl : String)
    (d p : Nat) (sdo hoe : Bool) (fuel : Nat) :
    scrapeEmailsFromWebsite env startUrl ⟨d, p, sdo, true, false, hoe⟩ fuel
      = scrapeEmailsFromWebsite env startUrl ⟨d, p, sdo, false, false, hoe⟩ fuel := by
  unfold scrapeEmailsFromWebsite
  exact crawlLoop_fallback env d p sdo hoe (getDomain startUrl) fuel _

/-! ### C5: page-level failures never abort the run -/

/-- C5: a page-level failure while fetching one URL (a thrown network
error or a non-2xx status both surface here as `.error`) never aborts
the run: the step marks the URL visited, contributes none of its emails
(`allEmails` unchanged), reports the error through `onError` when that
callback is provided and through the log otherwise, and leaves the rest
of the frontier exactly in place so every subsequent entry is still
processed.  The concrete Scenario E run (second frontier URL throws a
network error) shows `onError` invoked with that URL, the third URL
still processed, and its email — and nothing from the failed URL — in
the final result set. -/
theorem page_failure_never_aborts :
    (∀ (env : Env) (opts : CrawlOptions) (sd : String) (st : CrawlState)
        (entry : Entry) (rest : List Entry) (msg : String),
        st.toVisit = entry :: rest →
        st.visited.contains entry.url = false →
        ¬ entry.depth > opts.maxDepth →
        (opts.sameDomainOnly && getDomain entry.url != sd) = false →
        (fetchPage env opts entry.url).1 = .error msg →
        crawlStep env opts sd st =
          { allEmails := st.allEmails
            visited := st.visited ++ [entry.url]
            toVisit := rest
            events := ((st.events ++ [Event.fetchAttempt entry.url entry.depth])
                ++ (fetchPage env opts entry.url).2)
              ++ [if opts.hasOnError then Event.onErrorCalled entry.url msg
                  else Event.logged entry.url msg] }) ∧
    Event.onErrorCalled "https://a.example/u2" "network down" ∈
      (scrapeEmailsFromWebsite envErrorRun "https://a.example"
        ⟨3, 50, true, false, false, true⟩ 10).events ∧
    Event.pageVisited "https://a.example/u3" 1 1 ∈
      (scrapeEmailsFromWebsite envErrorRun "https://a.example"
        ⟨3, 50, true, false, false, true⟩ 10).events ∧
    (scrapeEmailsFromWebsite envErrorRun "https://a.example"
        ⟨3, 50, true, false, false, true⟩ 10).allEmails = ["c@d.example"] := by
  refine ⟨?_, by decide, by decide, by decide⟩
  intro env opts sd st entry rest msg htv hvis hdep hdom hf
  unfold crawlStep
  rw [htv]
  dsimp only
  rw [hvis]
  simp only [Bool.false_eq_true, if_false]
  rw [if_neg hdep, if_neg (by simp [hdom])]
  unfold processEntry
  rw [hf]

/-- Witness for C5: the step-level statement instantiated at the failing
second frontier entry of the Scenario E run. -/
theorem page_failure_never_aborts_witness :
    ((⟨[], ["https://a.example"], [⟨"https://a.example/u2", 1⟩], []⟩ :
        CrawlState).visited.contains "https://a.example/u2" = false) ∧
    ((fetchPage envErrorRun ⟨3, 50, true, false, false, true⟩
        "https://a.example/u2").1 = .error "network down") ∧
    crawlStep envErrorRun ⟨3, 50, true, false, false, true⟩ "a.example"
        ⟨[], ["https://a.example"], [⟨"https://a.example/u2", 1⟩], []⟩ =
      { allEmails := []
        visited := ["https://a.example", "https://a.example/u2"]
        toVisit := []
        events := [Event.fetchAttempt "https://a.example/u2" 1,
          Event.onErrorCalled "https://a.example/u2" "network down"] } := by
  refine ⟨by decide, rfl, ?_⟩
  have h := page_failure_never_aborts.1 envErrorRun ⟨3, 50, true, false, false, true⟩
    "a.example" ⟨[], ["https://a.example"], [⟨"https://a.example/u2", 1⟩], []⟩
    ⟨"https://a.example/u2", 1⟩ [] "network down" rfl (by decide) (by decide)
    (by decide) rfl
  rw [h]
  decide

/-! ### C9: browser pages are always released -/

theorem balanced_append {l m : List Event} (h1 : Balanced l) (h2 : Balanced m) :
    Balanced (l ++ m) := by
  induction h1 with
  | nil => exact h2
  | other e he rest _ ih => exact Balanced.other e he _ ih
  | pair u rest _ ih => exact Balanced.pair u _ ih

theorem balanced_singleton (e : Event) (h : ∀ u, e ≠ Event.pageOpened u) :
    Balanced [e] :=
  Balanced.other e h [] .nil

theorem balanced_no_opens (l : List Event)
    (h : ∀ e ∈ l, ∀ u, e ≠ Event.pageOpened u) : Balanced l := by
  induction l with
  | nil => exact .nil
  | cons e rest ih =>
    exact .other e (h e (List.mem_cons_self _ _)) _
      (ih fun x hx => h x (List.mem_cons_of_mem _ hx))

theorem balanced_pagesClosed {l : List Event} (h : Balanced l) :
    pagesClosed l = true := by
  induction h with
  | nil => rfl
  | other e he rest _ ih =>
    cases e with
    | pageOpened u => exact absurd rfl (he u)
    | fetchAttempt u d => simpa [pagesClosed] using ih
    | pageClosed u => simpa [pagesClosed] using ih
    | pageVisited u d n => simpa [pagesClosed] using ih
    | enqueued u d => simpa [pagesClosed] using ih
    | onErrorCalled u m => simpa [pagesClosed] using ih
    | logged u m => simpa [pagesClosed] using ih
  | pair u rest _ ih => simp [pagesClosed, ih]

theorem balanced_fetchPage_snd (env : Env) (opts : CrawlOptions) (url : String) :
    Balanced (fetchPage env opts url).2 := by
  rcases fetchPage_events env opts url with hfe | hfe <;> rw [hfe]
  · exact .nil
  · exact .pair url [] .nil

theorem crawlStep_balanced (env : Env) (opts : CrawlOptions) (sd : String)
    (st : CrawlState) (h : Balanced st.events) :
    Balanced (crawlStep env opts sd st).events := by
  unfold crawlStep
  cases htv : st.toVisit with
  | nil => exact h
  | cons entry rest =>
    dsimp only
    split
    · exact h
    split
    · exact h
    split
    · exact h
    unfold processEntry
    cases hf : (fetchPage env opts entry.url).1 with
    | error msg =>
      simp only [hf]
      refine balanced_append (balanced_append
        (balanced_append h (balanced_singleton _ fun u hc => Event.noConfusion hc))
        (balanced_fetchPage_snd env opts entry.url)) ?_
      split <;> exact balanced_singleton _ fun u hc => Event.noConfusion hc
    | ok p =>
      obtain ⟨emails, html⟩ := p
      simp only [hf]
      split
      · refine balanced_append (balanced_append (balanced_append
          (balanced_append h (balanced_singleton _ fun u hc => Event.noConfusion hc))
          (balanced_fetchPage_snd env opts entry.url))
          (balanced_singleton _ fun u hc => Event.noConfusion hc)) ?_
        refine balanced_no_opens _ ?_
        intro e he u
        rw [List.mem_map] at he
        obtain ⟨ent, _, rfl⟩ := he
        exact fun hc => Event.noConfusion hc
      · exact balanced_append (balanced_append
          (balanced_append h (balanced_singleton _ fun u hc => Event.noConfusion hc))
          (balanced_fetchPage_snd env opts entry.url))
          (balanced_singleton _ fun u hc => Event.noConfusion hc)

/-- C9: in every crawl run — whatever the environment makes navigation,
content retrieval, page-context extraction or even `page.close` itself
do — the trace satisfies `pagesClosed`: a `pageOpened` for a URL is
immediately followed by its `pageClosed`, so a browser page opened for
one frontier entry is closed before the controller proceeds to anything
else.  In the concrete browser-mode run where `goto` throws, the page
is still closed before the error is reported. -/
theorem browser_page_always_closed :
    (∀ (env : Env) (startUrl : String) (opts : CrawlOptions) (fuel : Nat),
        pagesClosed (scrapeEmailsFromWebsite env startUrl opts fuel).events = true) ∧
    (scrapeEmailsFromWebsite envGotoFails "https://a.example"
        ⟨3, 50, true, true, true, true⟩ 10).events
      = [Event.fetchAttempt "https://a.example" 0,
         Event.pageOpened "https://a.example",
         Event.pageClosed "https://a.example",
         Event.onErrorCalled "https://a.example" "navigation timeout"] := by
  refine ⟨?_, by decide⟩
  intro env startUrl opts fuel
  exact balanced_pagesClosed (crawlLoop_invariant env opts (getDomain startUrl)
    (fun st => Balanced st.events)
    (fun st _ _ hP => crawlStep_balanced env opts (getDomain startUrl) st hP)
    fuel _ .nil)

/-! ### C6: each URL fetched at most once, at its first discovery depth -/

theorem fetchCount_append (u : String) (a b : List Event) :
    fetchCount u (a ++ b) = fetchCount u a + fetchCount u b := by
  unfold fetchCount
  rw [List.filter_append, List.length_append]

theorem enqueueDepths_append (u : String) (a b : List Event) :
    enqueueDepths u (a ++ b) = enqueueDepths u a ++ enqueueDepths u b := by
  unfold enqueueDepths
  exact List.filterMap_append a b _

theorem fetchCount_fetchPage (env : Env) (opts : CrawlOptions) (url u : String) :
    fetchCount u (fetchPage env opts url).2 = 0 := by
  rcases fetchPage_events env opts url with h | h <;> rw [h] <;> rfl

theorem enqueueDepths_fetchPage (env : Env) (opts : CrawlOptions) (url u : String) :
    enqueueDepths u (fetchPage env opts url).2 = [] := by
  rcases fetchPage_events env opts url with h | h <;> rw [h] <;> rfl

theorem fetchCount_single_fetch (u v : String) (d : Nat) :
    fetchCount u [Event.fetchAttempt v d] = if v == u then 1 else 0 := by
  unfold fetchCount
  cases h : v == u <;> simp [List.filter_cons, isFetchOf, h]

theorem fetchCount_enqueues (u : String) (l : List Entry) :
    fetchCount u (l.map fun e => Event.enqueued e.url e.depth) = 0 := by
  induction l with
  | nil => rfl
  | cons a as ih =>
    unfold fetchCount at *
    simpa [List.filter_cons, isFetchOf] using ih

theorem enqueueDepths_enqueues (u : String) (l : List Entry) :
    enqueueDepths u (l.map fun e => Event.enqueued e.url e.depth)
      = (l.filter (fun e => e.url == u)).map Entry.depth := by
  induction l with
  | nil => rfl
  | cons a as ih =>
    unfold enqueueDepths at *
    rw [List.map_cons, List.filterMap_cons, List.filter_cons]
    dsimp only
    cases h : a.url == u
    · rw [if_neg (by simp), if_neg (by simp)]
      exact ih
    · rw [if_pos rfl, if_pos rfl, List.map_cons]
      exact congrArg (List.cons a.depth) ih

theorem fetch_mem_le_count {u : String} {d : Nat} {evs : List Event}
    (h : Event.fetchAttempt u d ∈ evs) : 1 ≤ fetchCount u evs := by
  unfold fetchCount
  have hm : Event.fetchAttempt u d ∈ evs.filter (isFetchOf u) := by
    rw [List.mem_filter]
    exact ⟨h, by simp [isFetchOf]⟩
  have := List.length_pos.mpr (List.ne_nil_of_mem hm)
  omega

theorem fetchAttempt_not_mem_fetchPage (env : Env) (opts : CrawlOptions)
    (url u : String) (d : Nat) :
    Event.fetchAttempt u d ∉ (fetchPage env opts url).2 := by
  rcases fetchPage_events env opts url with h | h <;> rw [h] <;> simp

theorem processEntry_trace_shape (env : Env) (opts : CrawlOptions) (sd : String)
    (entry : Entry) (rest : List Entry) (st : CrawlState) :
    ∃ A : List Entry,
      (∀ a ∈ A, a.depth = entry.depth + 1 ∧
          (st.visited ++ [entry.url]).contains a.url = false ∧
          (opts.sameDomainOnly && getDomain a.url != sd) = false) ∧
      (A ≠ [] → entry.depth < opts.maxDepth) ∧
      (processEntry env opts sd entry rest st).toVisit = rest ++ A ∧
      (processEntry env opts sd entry rest st).visited = st.visited ++ [entry.url] ∧
      (∀ u : String, fetchCount u (processEntry env opts sd entry rest st).events
        = fetchCount u st.events + (if entry.url == u then 1 else 0)) ∧
      (∀ u : String, enqueueDepths u (processEntry env opts sd entry rest st).events
        = enqueueDepths u st.events
            ++ (A.filter (fun e => e.url == u)).map Entry.depth) ∧
      (∀ (u : String) (d : Nat),
        Event.fetchAttempt u d ∈ (processEntry env opts sd entry rest st).events ↔
          (Event.fetchAttempt u d ∈ st.events ∨ (u = entry.url ∧ d = entry.depth))) := by
  unfold processEntry
  cases hf : (fetchPage env opts entry.url).1 with
  | error msg =>
    refine ⟨[], by simp, by simp, by simp [hf], by simp [hf], ?_, ?_, ?_⟩
    · intro u
      simp only [hf]
      rw [fetchCount_append, fetchCount_append, fetchCount_append,
        fetchCount_fetchPage, fetchCount_single_fetch]
      have hz : fetchCount u [if opts.hasOnError then Event.onErrorCalled entry.url msg
          else Event.logged entry.url msg] = 0 := by
        split <;> rfl
      rw [hz]
      cases entry.url == u <;> simp
    · intro u
      simp only [hf]
      rw [enqueueDepths_append, enqueueDepths_append, enqueueDepths_append,
        enqueueDepths_fetchPage]
      have h1 : enqueueDepths u [Event.fetchAttempt entry.url entry.depth] = [] := rfl
      have h2 : enqueueDepths u [if opts.hasOnError then Event.onErrorCalled entry.url msg
          else Event.logged entry.url msg] = [] := by
        split <;> rfl
      rw [h1, h2]
      simp
    · intro u d
      simp only [hf, List.mem_append, List.mem_singleton]
      constructor
      · rintro (((h | h) | h) | h)
        · exact Or.inl h
        · injection h with h1 h2
          exact Or.inr ⟨h1, h2⟩
        · exact absurd h (fetchAttempt_not_mem_fetchPage env opts entry.url u d)
        · exfalso
          revert h
          split <;> intro h <;> cases h
      · rintro (h | ⟨rfl, rfl⟩)
        · exact Or.inl (Or.inl (Or.inl h))
        · exact Or.inl (Or.inl (Or.inr rfl))
  | ok p =>
    obtain ⟨emails, html⟩ := p
    simp only [hf]
    split
    · next hlt =>
      refine ⟨newEntries opts sd (st.visited ++ [entry.url])
          (extractLinks html entry.url) entry.depth, ?_, fun _ => hlt,
        by simp, by simp, ?_, ?_, ?_⟩
      · intro a ha
        have hm := mem_newEntries ha
        refine ⟨hm.2.1, hm.2.2.1, ?_⟩
        cases hsd : opts.sameDomainOnly
        · simp
        · simp only [Bool.true_and]
          rw [bne_eq_false_iff_eq]
          exact hm.2.2.2 hsd
      · intro u
        rw [fetchCount_append, fetchCount_append, fetchCount_append,
          fetchCount_append, fetchCount_fetchPage, fetchCount_single_fetch,
          fetchCount_enqueues]
        have hz : fetchCount u [Event.pageVisited entry.url entry.depth emails.length]
            = 0 := rfl
        rw [hz]
        cases entry.url == u <;> simp
      · intro u
        rw [enqueueDepths_append, enqueueDepths_append, enqueueDepths_append,
          enqueueDepths_append, enqueueDepths_fetchPage, enqueueDepths_enqueues]
        have h1 : enqueueDepths u [Event.fetchAttempt entry.url entry.depth] = [] := rfl
        have h2 : enqueueDepths u
            [Event.pageVisited entry.url entry.depth emails.length] = [] := rfl
        rw [h1, h2]
        simp
      · intro u d
        simp only [List.mem_append, List.mem_singleton]
        constructor
        · rintro ((((h | h) | h) | h) | h)
          · exact Or.inl h
          · injection h with h1 h2
            exact Or.inr ⟨h1, h2⟩
          · exact absurd h (fetchAttempt_not_mem_fetchPage env opts entry.url u d)
          · cases h
          · exfalso
            rw [List.mem_map] at h
            obtain ⟨ent, _, hcon⟩ := h
            cases hcon
        · rintro (h | ⟨rfl, rfl⟩)
          · exact Or.inl (Or.inl (Or.inl (Or.inl h)))
          · exact Or.inl (Or.inl (Or.inl (Or.inr rfl)))
    · next hge =>
      refine ⟨[], by simp, by simp, by simp, by simp, ?_, ?_, ?_⟩
      · intro u
        rw [fetchCount_append, fetchCount_append, fetchCount_append,
          fetchCount_fetchPage, fetchCount_single_fetch]
        have hz : fetchCount u [Event.pageVisited entry.url entry.depth emails.length]
            = 0 := rfl
        rw [hz]
        cases entry.url == u <;> simp
      · intro u
        rw [enqueueDepths_append, enqueueDepths_append, enqueueDepths_append,
          enqueueDepths_fetchPage]
        have h1 : enqueueDepths u [Event.fetchAttempt entry.url entry.depth] = [] := rfl
        have h2 : enqueueDepths u
            [Event.pageVisited entry.url entry.depth emails.length] = [] := rfl
        rw [h1, h2]
        simp
      · intro u d
        simp only [List.mem_append, List.mem_singleton]
        constructor
        · rintro (((h | h) | h) | h)
          · exact Or.inl h
          · injection h with h1 h2
            exact Or.inr ⟨h1, h2⟩
          · exact absurd h (fetchAttempt_not_mem_fetchPage env opts entry.url u d)
          · cases h
        · rintro (h | ⟨rfl, rfl⟩)
          · exact Or.inl (Or.inl (Or.inl h))
          · exact Or.inl (Or.inl (Or.inr rfl))

theorem crawlStep_dedupInv (env : Env) (opts : CrawlOptions) (sd startUrl : String)
    (st : CrawlState) (h : dedupInv opts sd startUrl st) :
    dedupInv opts sd startUrl (crawlStep env opts sd st) := by
  obtain ⟨hfr, hu⟩ := h
  unfold crawlStep
  cases htv : st.toVisit with
  | nil => exact ⟨hfr, hu⟩
  | cons entry rest =>
    rw [htv] at hfr
    obtain ⟨hfe1, hfe2⟩ := hfr entry (List.mem_cons_self _ _)
    dsimp only
    split
    · next hvisT =>
      have hvisMem : entry.url ∈ st.visited := by simpa using hvisT
      refine ⟨fun e he => hfr e (List.mem_cons_of_mem _ he), ?_⟩
      intro u
      obtain ⟨ha, hb, hc⟩ := hu u
      refine ⟨ha, ?_, hc⟩
      intro hnv
      obtain ⟨hb1, hb2⟩ := hb hnv
      refine ⟨hb1, ?_⟩
      have hne : (entry.url == u) = false := by
        rw [beq_eq_false_iff_ne]
        intro hq
        exact hnv (hq ▸ hvisMem)
      rw [htv] at hb2
      simp only [List.filter_cons, hne, Bool.false_eq_true, if_false] at hb2
      exact hb2
    next hvisF =>
    split
    · next hdepT => exact absurd hfe1 (by omega)
    next hdepF =>
    split
    · next hdomT => exact Bool.noConfusion (hfe2 ▸ hdomT)
    next hdomF =>
    obtain ⟨A, hAfacts, hAne, hTV, hVIS, hFC, hED, hMEM⟩ :=
      processEntry_trace_shape env opts sd entry rest st
    have hvisNotMem : entry.url ∉ st.visited := by simpa using hvisF
    constructor
    · intro e he
      rw [hTV, List.mem_append] at he
      rcases he with he | he
      · exact hfr e (List.mem_cons_of_mem _ he)
      · obtain ⟨had, hac, hadom⟩ := hAfacts e he
        refine ⟨?_, hadom⟩
        have := hAne (List.ne_nil_of_mem he)
        omega
    · intro u
      obtain ⟨ha, hb, hc⟩ := hu u
      by_cases hq : u = entry.url
      · subst hq
        obtain ⟨hb1, hb2⟩ := hb hvisNotMem
        have hAfil : A.filter (fun e => e.url == entry.url) = [] := by
          rw [List.filter_eq_nil_iff]
          intro a haA hbeq
          obtain ⟨_, hac, _⟩ := hAfacts a haA
          have hau : a.url = entry.url := by simpa using hbeq
          rw [hau] at hac
          simp at hac
        refine ⟨?_, ?_, ?_⟩
        · intro _
          rw [hFC entry.url]
          simp only [beq_self_eq_true, if_true]
          omega
        · intro hnv'
          exfalso
          rw [hVIS] at hnv'
          simp at hnv'
        · intro d hd
          rw [hMEM entry.url d] at hd
          rw [hED entry.url, hAfil]
          simp only [List.map_nil, List.append_nil]
          rcases hd with hd | ⟨_, rfl⟩
          · have := fetch_mem_le_count hd
            omega
          · rw [htv] at hb2
            simp only [List.filter_cons, beq_self_eq_true, if_true] at hb2
            rw [← hb2]
            simp
      · have hbeqF : (entry.url == u) = false := by
          rw [beq_eq_false_iff_ne]
          exact fun hcon => hq hcon.symm
        refine ⟨?_, ?_, ?_⟩
        · intro hmem'
          rw [hVIS, List.mem_append] at hmem'
          have hmemOld : u ∈ st.visited := by
            rcases hmem' with hm | hm
            · exact hm
            · exact absurd (by simpa using hm) hq
          rw [hFC u, hbeqF]
          simpa using ha hmemOld
        · intro hnv'
          have hnvOld : u ∉ st.visited := by
            intro hcon
            exact hnv' (by rw [hVIS]; exact List.mem_append_left _ hcon)
          obtain ⟨hb1, hb2⟩ := hb hnvOld
          constructor
          · rw [hFC u, hbeqF]
            simpa using hb1
          · rw [hTV, hED u, List.filter_append, List.map_append]
            rw [htv] at hb2
            simp only [List.filter_cons, hbeqF, Bool.false_eq_true, if_false] at hb2
            rw [hb2, List.append_assoc]
        · intro d hd
          rw [hMEM u d] at hd
          rcases hd with hd | ⟨hcon, _⟩
          · have hcOld := hc d hd
            rw [hED u]
            by_cases hv : u ∈ st.visited
            · have hAfil : A.filter (fun e => e.url == u) = [] := by
                rw [List.filter_eq_nil_iff]
                intro a haA hbeq
                obtain ⟨_, hac, _⟩ := hAfacts a haA
                have hau : a.url = u := by simpa using hbeq
                rw [hau] at hac
                simp at hac
                exact hac.1 hv
              rw [hAfil]
              simpa using hcOld
            · obtain ⟨hb1, _⟩ := hb hv
              have := fetch_mem_le_count hd
              omega
          · exact absurd hcon hq

theorem dedupInv_init (opts : CrawlOptions) (startUrl : String) :
    dedupInv opts (getDomain startUrl) startUrl
      { allEmails := [], visited := [], toVisit := [⟨startUrl, 0⟩], events := [] } := by
  constructor
  · intro e he
    rw [List.mem_singleton] at he
    subst he
    exact ⟨Nat.zero_le _, by simp⟩
  · intro u
    refine ⟨(by intro h; cases h), ?_, (by intro d hd; cases hd)⟩
    intro _
    refine ⟨rfl, ?_⟩
    by_cases hq : u = startUrl
    · subst hq
      simp [initDepths, enqueueDepths, List.filter_cons]
    · have hbeq : (startUrl == u) = false := by
        rw [beq_eq_false_iff_ne]
        exact fun hcon => hq hcon.symm
      simp [initDepths, enqueueDepths, List.filter_cons, hbeq, hq]

/-- C6: in every crawl run each URL is fetched at most once — even when
linked from several pages, later duplicate discoveries are dropped (at
enqueue time when the URL is already visited, at pop time otherwise) —
and the depth of the one fetch of `u` is the head of `u`'s discovery
list (depth 0 for the start URL, the depth of the FIRST `enqueued`
event for `u` otherwise): first discovery wins, and a skipped duplicate
is never re-fetched at a different depth. -/
theorem url_fetched_at_most_once :
    (∀ (env : Env) (startUrl : String) (opts : CrawlOptions) (fuel : Nat) (u : String),
        fetchCount u (scrapeEmailsFromWebsite env startUrl opts fuel).events ≤ 1) ∧
    (∀ (env : Env) (startUrl : String) (opts : CrawlOptions) (fuel : Nat)
        (u : String) (d : Nat),
        Event.fetchAttempt u d ∈ (scrapeEmailsFromWebsite env startUrl opts fuel).events →
        (initDepths startUrl u
            ++ enqueueDepths u
              (scrapeEmailsFromWebsite env startUrl opts fuel).events).head?
          = some d) := by
  have hInv : ∀ (env : Env) (startUrl : String) (opts : CrawlOptions) (fuel : Nat),
      dedupInv opts (getDomain startUrl) startUrl
        (scrapeEmailsFromWebsite env startUrl opts fuel) :=
    fun env startUrl opts fuel =>
      crawlLoop_invariant env opts (getDomain startUrl)
        (dedupInv opts (getDomain startUrl) startUrl)
        (fun st _ _ hP => crawlStep_dedupInv env opts (getDomain startUrl) startUrl st hP)
        fuel _ (dedupInv_init opts startUrl)
  constructor
  · intro env startUrl opts fuel u
    obtain ⟨_, hu⟩ := hInv env startUrl opts fuel
    obtain ⟨ha, hb, _⟩ := hu u
    by_cases hv : u ∈ (scrapeEmailsFromWebsite env startUrl opts fuel).visited
    · exact ha hv
    · have := (hb hv).1
      omega
  · intro env startUrl opts fuel u d hd
    obtain ⟨_, hu⟩ := hInv env startUrl opts fuel
    exact (hu u).2.2 d hd

/-- Witness for C6: in the Scenario E run, `/u2` is fetched at depth 1,
the depth of its first (and only) enqueue. -/
theorem url_fetched_at_most_once_witness :
    (Event.fetchAttempt "https://a.example/u2" 1 ∈
      (scrapeEmailsFromWebsite envErrorRun "https://a.example"
        ⟨3, 50, true, false, false, true⟩ 10).events) ∧
    (initDepths "https://a.example" "https://a.example/u2"
        ++ enqueueDepths "https://a.example/u2"
          (scrapeEmailsFromWebsite envErrorRun "https://a.example"
            ⟨3, 50, true, false, false, true⟩ 10).events).head? = some 1 :=
  ⟨by decide, url_fetched_at_most_once.2 envErrorRun "https://a.example"
    ⟨3, 50, true, false, false, true⟩ 10 "https://a.example/u2" 1 (by decide)⟩

/-! ### C7: FIFO frontier and breadth-first processing order -/

theorem fetchDepths_append (a b : List Event) :
    fetchDepths (a ++ b) = fetchDepths a ++ fetchDepths b := by
  unfold fetchDepths
  exact List.filterMap_append a b _

theorem fetchDepths_fetchPage (env : Env) (opts : CrawlOptions) (url : String) :
    fetchDepths (fetchPage env opts url).2 = [] := by
  rcases fetchPage_events env opts url with h | h <;> rw [h] <;> rfl

theorem fetchDepths_enqueues (l : List Entry) :
    fetchDepths (l.map fun e => Event.enqueued e.url e.depth) = [] := by
  induction l with
  | nil => rfl
  | cons a as ih => simpa [fetchDepths, List.filterMap_cons] using ih

theorem processEntry_bfs_shape (env : Env) (opts : CrawlOptions) (sd : String)
    (entry : Entry) (rest : List Entry) (st : CrawlState) :
    ∃ A : List Entry,
      (∀ a ∈ A, a.depth = entry.depth + 1) ∧
      (processEntry env opts sd entry rest st).toVisit = rest ++ A ∧
      fetchDepths (processEntry env opts sd entry rest st).events
        = fetchDepths st.events ++ [entry.depth] := by
  unfold processEntry
  cases hf : (fetchPage env opts entry.url).1 with
  | error msg =>
    refine ⟨[], by simp, by simp [hf], ?_⟩
    simp only [hf]
    rw [fetchDepths_append, fetchDepths_append, fetchDepths_append,
      fetchDepths_fetchPage]
    split <;> simp [fetchDepths, List.filterMap_cons]
  | ok p =>
    obtain ⟨emails, html⟩ := p
    simp only [hf]
    split
    · refine ⟨newEntries opts sd (st.visited ++ [entry.url])
        (extractLinks html entry.url) entry.depth, ?_, by simp, ?_⟩
      · intro a ha
        exact (mem_newEntries ha).2.1
      · rw [fetchDepths_append, fetchDepths_append, fetchDepths_append,
          fetchDepths_append, fetchDepths_fetchPage, fetchDepths_enqueues]
        simp [fetchDepths, List.filterMap_cons]
    · refine ⟨[], by simp, by simp, ?_⟩
      rw [fetchDepths_append, fetchDepths_append, fetchDepths_append,
        fetchDepths_fetchPage]
      simp [fetchDepths, List.filterMap_cons]

theorem pairwise_le_of_const {A : List Nat} {c : Nat} (hA : ∀ a ∈ A, a = c) :
    List.Pairwise (· ≤ ·) A := by
  induction A with
  | nil => exact List.Pairwise.nil
  | cons a as ih =>
    refine List.Pairwise.cons ?_ (ih fun x hx => hA x (List.mem_cons_of_mem _ hx))
    intro b hb
    rw [hA a (List.mem_cons_self _ _), hA b (List.mem_cons_of_mem _ hb)]

theorem bfsInv_push (F T A : List Nat) (D : Nat)
    (h1 : List.Pairwise (· ≤ ·) F)
    (h2 : List.Pairwise (· ≤ ·) (D :: T))
    (h3 : ∀ x ∈ D :: T, ∀ y ∈ D :: T, x ≤ y + 1)
    (h4 : ∀ d ∈ F, ∀ x ∈ D :: T, d ≤ x)
    (hA : ∀ a ∈ A, a = D + 1) :
    List.Pairwise (· ≤ ·) (F ++ [D]) ∧
    List.Pairwise (· ≤ ·) (T ++ A) ∧
    (∀ x ∈ T ++ A, ∀ y ∈ T ++ A, x ≤ y + 1) ∧
    (∀ d ∈ F ++ [D], ∀ x ∈ T ++ A, d ≤ x) := by
  have hDT : ∀ y ∈ T, D ≤ y := (List.pairwise_cons.mp h2).1
  have hT : List.Pairwise (· ≤ ·) T := (List.pairwise_cons.mp h2).2
  have hT1 : ∀ x ∈ T, x ≤ D + 1 := fun x hx =>
    h3 x (List.mem_cons_of_mem _ hx) D (List.mem_cons_self _ _)
  have hFD : ∀ d ∈ F, d ≤ D := fun d hd => h4 d hd D (List.mem_cons_self _ _)
  refine ⟨?_, ?_, ?_, ?_⟩
  · rw [List.pairwise_append]
    exact ⟨h1, List.pairwise_singleton _ _,
      fun a ha b hb => (List.mem_singleton.mp hb) ▸ hFD a ha⟩
  · rw [List.pairwise_append]
    refine ⟨hT, pairwise_le_of_const hA, ?_⟩
    intro a ha b hb
    rw [hA b hb]
    exact hT1 a ha
  · intro x hx y hy
    rw [List.mem_append] at hx hy
    rcases hx with hx | hx <;> rcases hy with hy | hy
    · exact h3 x (List.mem_cons_of_mem _ hx) y (List.mem_cons_of_mem _ hy)
    · rw [hA y hy]; have := hT1 x hx; omega
    · rw [hA x hx]; have := hDT y hy; omega
    · rw [hA x hx, hA y hy]; omega
  · intro d hd x hx
    rw [List.mem_append, List.mem_singleton] at hd
    rw [List.mem_append] at hx
    rcases hd with hd | rfl <;> rcases hx with hx | hx
    · exact h4 d hd x (List.mem_cons_of_mem _ hx)
    · rw [hA x hx]; have := hFD d hd; omega
    · exact hDT x hx
    · rw [hA x hx]; omega

theorem crawlStep_bfsInv (env : Env) (opts : CrawlOptions) (sd : String)
    (st : CrawlState) (h : bfsInv st) : bfsInv (crawlStep env opts sd st) := by
  obtain ⟨h1, h2, h3, h4⟩ := h
  unfold bfsInv at *
  unfold crawlStep
  cases htv : st.toVisit with
  | nil => exact ⟨h1, h2, h3, h4⟩
  | cons entry rest =>
    have hfd : frontierDepths st = entry.depth :: rest.map Entry.depth := by
      simp [frontierDepths, htv]
    rw [hfd] at h2 h3 h4
    have hskip : List.Pairwise (· ≤ ·) (rest.map Entry.depth) ∧
        (∀ x ∈ rest.map Entry.depth, ∀ y ∈ rest.map Entry.depth, x ≤ y + 1) ∧
        (∀ d ∈ fetchDepths st.events, ∀ x ∈ rest.map Entry.depth, d ≤ x) :=
      ⟨(List.pairwise_cons.mp h2).2,
        fun x hx y hy => h3 x (List.mem_cons_of_mem _ hx) y (List.mem_cons_of_mem _ hy),
        fun d hd x hx => h4 d hd x (List.mem_cons_of_mem _ hx)⟩
    dsimp only
    split
    · exact ⟨h1, by simpa [frontierDepths] using hskip.1,
        by simpa [frontierDepths] using hskip.2.1,
        by simpa [frontierDepths] using hskip.2.2⟩
    split
    · exact ⟨h1, by simpa [frontierDepths] using hskip.1,
        by simpa [frontierDepths] using hskip.2.1,
        by simpa [frontierDepths] using hskip.2.2⟩
    split
    · exact ⟨h1, by simpa [frontierDepths] using hskip.1,
        by simpa [frontierDepths] using hskip.2.1,
        by simpa [frontierDepths] using hskip.2.2⟩
    obtain ⟨A, hA, hTV, hFD2⟩ := processEntry_bfs_shape env opts sd entry rest st
    have hpush := bfsInv_push (fetchDepths st.events) (rest.map Entry.depth)
      (A.map Entry.depth) entry.depth h1 h2 h3 h4
      (fun a ha => by
        rw [List.mem_map] at ha
        obtain ⟨ent, hent, rfl⟩ := ha
        exact hA ent hent)
    rw [hFD2]
    have hfront : frontierDepths (processEntry env opts sd entry rest st)
        = rest.map Entry.depth ++ A.map Entry.depth := by
      simp [frontierDepths, hTV]
    rw [hfront]
    exact hpush

/-- C7: the frontier is FIFO (the loop pops `toVisit`'s head and appends
newly discovered links at the tail, at `depth + 1` — definitional in
`crawlStep`), so the depths at which pages are processed form a
nondecreasing sequence: every page at depth `d` is fetched before any
page at depth `d + 1`.  In the concrete Scenario E run the processed
depth sequence is `[0, 1, 1]`. -/
theorem bfs_processing_order :
    (∀ (env : Env) (startUrl : String) (opts : CrawlOptions) (fuel : Nat),
        List.Pairwise (· ≤ ·)
          (fetchDepths (scrapeEmailsFromWebsite env startUrl opts fuel).events)) ∧
    fetchDepths (scrapeEmailsFromWebsite envErrorRun "https://a.example"
        ⟨3, 50, true, false, false, true⟩ 10).events = [0, 1, 1] := by
  refine ⟨?_, by decide⟩
  intro env startUrl opts fuel
  have h := crawlLoop_invariant env opts (getDomain startUrl) bfsInv
    (fun st _ _ hP => crawlStep_bfsInv env opts (getDomain startUrl) st hP) fuel
    { allEmails := [], visited := [], toVisit := [⟨startUrl, 0⟩], events := [] }
    ⟨by simp [fetchDepths], by simp [frontierDepths],
      by simp [frontierDepths], by simp [fetchDepths]⟩
  exact h.1

/-! ### C8: extractLinks -/

/-- C8: for every html string and baseUrl, every element of
`extractLinks html baseUrl` is an absolute URL obtained by resolving
some scanned (single- or double-quoted) anchor href capture against
`baseUrl` with the fragment stripped (that is what `normalizeUrl`
computes, and hrefs that fail to parse contribute nothing — the
function is total, so it never throws); the result is a deduplicating
set (duplicate-free list); and the relative href `../about#team` on
page `https://site.example/blog/post` yields
`https://site.example/about`. -/
theorem extractLinks_spec :
    (∀ (html baseUrl link : String), link ∈ extractLinks html baseUrl →
        ∃ cap ∈ scanLinks html.data.length html.data,
          normalizeUrl (String.mk cap) baseUrl = some link) ∧
    (∀ html baseUrl : String, (extractLinks html baseUrl).Nodup) ∧
    extractLinks "<p><a href=\"../about#team\">team</a></p>" "https://site.example/blog/post"
      = ["https://site.example/about"] := by
  refine ⟨?_, ?_, by decide⟩
  · intro html baseUrl link h
    unfold extractLinks at h
    rcases foldl_links_mem baseUrl (scanLinks html.data.length html.data) [] link h with
      h1 | h2
    · simp at h1
    · exact h2
  · intro html baseUrl
    exact foldl_links_nodup baseUrl _ [] List.nodup_nil

/-- Witness for C8: instantiating the universal part on the concrete page. -/
theorem extractLinks_spec_witness :
    ("https://site.example/about" ∈
        extractLinks "<p><a href=\"../about#team\">team</a></p>"
          "https://site.example/blog/post") ∧
    (∃ cap ∈ scanLinks ("<p><a href=\"../about#team\">team</a></p>" : String).data.length
          ("<p><a href=\"../about#team\">team</a></p>" : String).data,
        normalizeUrl (String.mk cap) "https://site.example/blog/post"
          = some "https://site.example/about") :=
  ⟨by decide,
    extractLinks_spec.1 "<p><a href=\"../about#team\">team</a></p>"
      "https://site.example/blog/post" "https://site.example/about" (by decide)⟩

/-! ### C10: the scope filter is hostname-only -/

/-- C10: `getDomain` is exactly the URL's hostname — scheme and port are
ignored — so with `sameDomainOnly = true` a link whose hostname equals
the start hostname passes the filter even with a different scheme and
port (`http://a.example:8080/x` is fetched in a crawl started at
`https://a.example`, while `https://b.example/y` is never enqueued),
and an unparseable URL is assigned the empty-string domain. -/
theorem getDomain_hostname_only :
    getDomain "http://a.example:8080/x" = "a.example" ∧
    getDomain "https://a.example" = "a.example" ∧
    getDomain "not a url" = "" ∧
    getDomain "/relative" = "" ∧
    Event.fetchAttempt "http://a.example:8080/x" 1 ∈
      (scrapeEmailsFromWebsite envCrossDomain "https://a.example"
        ⟨3, 50, true, false, false, true⟩ 10).events ∧
    ((scrapeEmailsFromWebsite envCrossDomain "https://a.example"
        ⟨3, 50, true, false, false, true⟩ 10).events.filter
      (isEnqueueOf "https://b.example/y")) = [] ∧
    (∀ url : String, parseAbsList url.data = none → getDomain url = "") := by
  refine ⟨rfl, rfl, rfl, rfl, by decide, by decide, ?_⟩
  intro url h
  unfold getDomain
  rw [h]

/-- Witness for C10: the unparseable-URL conjunct at a concrete input. -/
theorem getDomain_hostname_only_witness :
    parseAbsList ("not a url" : String).data = none ∧ getDomain "not a url" = "" :=
  ⟨by decide, getDomain_hostname_only.2.2.2.2.2.2 "not a url" (by decide)⟩

end EmailScraper
